import Mathlib

/-!
Shallow embedding of the `id3v24` Go package (`id3v24.go`).

The package turns an ordered list of chapters (title + start-time string)
plus a total playing time into ID3v2.4 CHAP/CTOC frame bodies, and into an
FFmpeg `;FFMETADATA1` text file.

Modelling conventions:
* byte slices are `List Nat` with every element reduced `% 256` at the point
  where the Go code performs a byte conversion;
* machine-integer casts (`uint32(...)`, `byte(...)`) are explicit `% 2^32`
  / `% 256`;
* `time.Duration` values are nanosecond counts as `Nat`;
* text outputs (`[]byte` built from Go strings) are modelled at the rune
  level as `List Char` — Go would UTF-8-encode the same rune sequence, a
  concatenation-preserving injection, so line structure is unchanged;
* fallible Go functions returning `(T, error)` become `Except Err T`; the
  only errors the modelled code can produce are `ErrBadChapterStartTime`
  (`Err.malformedTimeCode`) and `ErrZeroDuration` (`Err.zeroDuration`).
-/

namespace Id3v24

/-- The two error values declared at the top of `id3v24.go`:
`ErrBadChapterStartTime` and `ErrZeroDuration`. -/
inductive Err where
  | malformedTimeCode
  | zeroDuration
deriving DecidableEq, Repr

/-- `type Chapter struct { Title string; Start string }`. -/
structure Chapter where
  title : String
  start : String
deriving DecidableEq, Repr, Inhabited

deriving instance DecidableEq for Except

/-! ### Go `time.Parse` for the layouts "15:04:05.000", "15:04:05.0", "15:04:05"

`StringTimeToTime` calls `time.Parse` with those three layouts.  The model
below reproduces the relevant behaviour of Go's `time/format.go`:
`getnum` (1-or-2-digit vs fixed-2-digit numbers), the hour/minute/second
range checks, `parseNanoseconds` (which uses the time package's `atoi`, so
it tolerates a sign character after the period), the special case that lets
a layout with no fractional second still consume `.ddd...` input, and the
trailing "extra text" check. -/

/-- Numeric value of a decimal digit character. Only applied to characters
that passed `Char.isDigit`. -/
def digitVal (c : Char) : Nat := c.toNat - 48

/-- Go `getnum(s, fixed)`: parses a 1- or 2-digit decimal number from the
front of the input; with `fixed = true` exactly 2 digits are required. -/
def getnum : List Char → Bool → Option (Nat × List Char)
  | [], _ => none
  | [c], fixed =>
    if c.isDigit then
      if fixed then none else some (digitVal c, [])
    else none
  | c1 :: c2 :: rest, fixed =>
    if c1.isDigit then
      if c2.isDigit then some (digitVal c1 * 10 + digitVal c2, rest)
      else if fixed then none else some (digitVal c1, c2 :: rest)
    else none

/-- Decimal value of a digit string (Go `leadingInt` on an all-digit run). -/
def digitsToNat (l : List Char) : Nat := l.foldl (fun a c => a * 10 + digitVal c) 0

/-- Go time-package `atoi`: optional sign, then digits only (an empty digit
run yields 0).  Inputs here are at most 9 characters, so the int64 overflow
check in the original can never fire and is omitted. -/
def goAtoi (s : List Char) : Option Int :=
  match s with
  | '-' :: rest => if rest.all Char.isDigit then some (-(digitsToNat rest : Int)) else none
  | '+' :: rest => if rest.all Char.isDigit then some ((digitsToNat rest : Int)) else none
  | _ => if s.all Char.isDigit then some ((digitsToNat s : Int)) else none

/-- Go `parseNanoseconds(value, nbytes)`: `value` must start with `.` or
`,`; `nbytes` is capped at 10; the next `nbytes - 1` characters go through
`atoi`; a negative result is a range error; the value is scaled by
`10^(10-nbytes)` to nanoseconds.  (Callers always supply
`value.length ≥ nbytes`, so the `take` below never truncates.) -/
def parseNanoseconds (value : List Char) (nbytes : Nat) : Option Nat :=
  match value with
  | [] => none
  | c :: rest =>
    if c = '.' ∨ c = ',' then
      match goAtoi (rest.take (min nbytes 10 - 1)) with
      | none => none
      | some ns => if ns < 0 then none else some (ns.toNat * 10 ^ (10 - min nbytes 10))
    else none

/-- Fractional-second handling after the seconds field, for a layout whose
fraction part is `.000`/`.0` (`frac = some 3` / `some 1`) or absent
(`frac = none`).  Includes Go's special case: with no fraction in the
layout, input of the shape `.digits` (or `,digits`) is still consumed.
Also performs the final "extra text" check of `time.Parse`. -/
def parseFrac : Option Nat → List Char → Option Nat
  | some d, s3 =>
    if s3.length < 1 + d then none
    else
      match parseNanoseconds s3 (1 + d) with
      | none => none
      | some ns => if s3.drop (1 + d) = [] then some ns else none
  | none, [] => some 0
  | none, c :: rest =>
    if (c = '.' ∨ c = ',') ∧ (rest.headD ' ').isDigit = true then
      match parseNanoseconds (c :: rest) (1 + (rest.takeWhile Char.isDigit).length) with
      | none => none
      | some ns =>
        if (c :: rest).drop (1 + (rest.takeWhile Char.isDigit).length) = [] then some ns
        else none
    else none

/-- Go `time.Parse` with layout `15:04:05` plus the fraction spec `frac`,
returning the parsed clock `(hour, minute, second, nanosecond)`.
Hour: 1–2 digits, `< 24`; minute and second: exactly 2 digits, `< 60`;
separators are literal `:`. -/
def parseHMS (frac : Option Nat) (s : List Char) : Option (Nat × Nat × Nat × Nat) :=
  match getnum s false with
  | none => none
  | some (h, s1) =>
    if 24 ≤ h then none
    else
      match s1 with
      | ':' :: s1' =>
        match getnum s1' true with
        | none => none
        | some (m, s2) =>
          if 60 ≤ m then none
          else
            match s2 with
            | ':' :: s2' =>
              match getnum s2' true with
              | none => none
              | some (sec, s3) =>
                if 60 ≤ sec then none
                else
                  match parseFrac frac s3 with
                  | none => none
                  | some ns => some (h, m, sec, ns)
            | _ => none
      | _ => none

/-- `StringTimeToTime`: tries `time.Parse` with layout `"15:04:05.000"`,
then `"15:04:05.0"`, then `"15:04:05"`; if all fail, returns
`ErrBadChapterStartTime`.  The result is the parsed wall-clock
`(Hour, Minute, Second, Nanosecond)` — the only components of the returned
`time.Time` the package reads. -/
def StringTimeToTime (t : String) : Except Err (Nat × Nat × Nat × Nat) :=
  match parseHMS (some 3) t.data with
  | some r => .ok r
  | none =>
    match parseHMS (some 1) t.data with
    | some r => .ok r
    | none =>
      match parseHMS none t.data with
      | some r => .ok r
      | none => .error .malformedTimeCode

/-- `StringTimeToMillis`: converts the parsed clock
`h*Hour + m*Minute + s*Second + ns` (nanoseconds) to milliseconds and
casts the quotient to `uint32`. -/
def StringTimeToMillis (t : String) : Except Err Nat :=
  match StringTimeToTime t with
  | .error e => .error e
  | .ok (h, m, s, ns) =>
    .ok ((h * 3600000000000 + m * 60000000000 + s * 1000000000 + ns) / 1000000 % 2 ^ 32)

/-! ### Binary frame construction (`TextFrame`, `AddCHAPAndCTOC`) -/

/-- `TextFrame`: one encoding byte `0x01` (UTF-16 with BOM), the
little-endian byte-order mark `0xFF 0xFE`, then for each rune of the input
the two bytes `byte(r), 0x00` appended in a loop. -/
def TextFrame (title : String) : List Nat :=
  title.data.foldl (fun frame r => frame ++ [r.toNat % 256, 0x00]) [0x01, 0xFF, 0xFE]

/-- `binary.BigEndian.PutUint32`: the four big-endian bytes of a `uint32`. -/
def u32be (n : Nat) : List Nat :=
  [n / 2 ^ 24 % 256, n / 2 ^ 16 % 256, n / 2 ^ 8 % 256, n % 256]

/-- Go `[]byte(s)` for the ASCII-only strings this package serializes
(decimal element IDs, `"TIT2"`, `"toc"`): one byte per character. -/
def asciiBytes (s : String) : List Nat := s.data.map Char.toNat

/-- A tag frame as handed to `tag.AddFrame(id, id3v2.UnknownFrame{Body})`:
the 4-character frame ID and the raw body bytes. -/
def Frame := String × List Nat
deriving DecidableEq, Repr, Inhabited

/-- One computed chapter interval: the values the CHAP encoding loop of
`AddCHAPAndCTOC` (and the text loop of `GetFFmpegChaptersTXT`) derives for
index `i`: `chapterID := strconv.Itoa(i+1)`, `start := starts[i]`,
`end := starts[i+1]` or the total duration for the last index, and the
chapter's title. -/
structure ChapterInterval where
  elementID : String
  startMillis : Nat
  endMillis : Nat
  title : String
deriving DecidableEq, Repr, Inhabited

/-- The per-index computation shared by the two output loops
(`for i, ch := range chapters` in `AddCHAPAndCTOC` and
`GetFFmpegChaptersTXT`). -/
def chapterIntervals (chapters : List Chapter) (starts : List Nat) (millis : Nat) :
    List ChapterInterval :=
  (List.range chapters.length).map fun i =>
    { elementID := toString (i + 1)
      startMillis := starts.getD i 0
      endMillis := if i < chapters.length - 1 then starts.getD (i + 1) 0 else millis
      title := (chapters.getD i default).title }

/-- The CHAP frame built for one interval, following the `body` appends of
the encoding loop: elementID bytes, NUL, start and end as 4 big-endian
bytes each, two `0xFFFFFFFF` byte offsets, then the embedded `TIT2`
sub-record: tag, `uint32` length of the encoded title, two zero flag
bytes, and the `TextFrame` payload. -/
def chapFrame (iv : ChapterInterval) : Frame :=
  ("CHAP",
    asciiBytes iv.elementID ++ [0x00]
      ++ u32be iv.startMillis ++ u32be iv.endMillis
      ++ [0xFF, 0xFF, 0xFF, 0xFF] ++ [0xFF, 0xFF, 0xFF, 0xFF]
      ++ asciiBytes "TIT2" ++ u32be ((TextFrame iv.title).length % 2 ^ 32)
      ++ [0x00, 0x00]
      ++ TextFrame iv.title)

/-- The CTOC frame: `"toc\x00"`, flag bytes `0x01 0x00`,
`byte(len(chapterIDs))`, then each collected chapter ID NUL-terminated. -/
def ctocFrame (chapterIDs : List String) : Frame :=
  ("CTOC",
    asciiBytes "toc" ++ [0x00] ++ [0x01, 0x00] ++ [chapterIDs.length % 256]
      ++ chapterIDs.foldl (fun acc id => acc ++ (asciiBytes id ++ [0x00])) [])

/-- The first loop of `AddCHAPAndCTOC` / `GetFFmpegChaptersTXT`: parse
every chapter's start, in order, stopping at the first error. -/
def parseStarts : List Chapter → Except Err (List Nat)
  | [] => .ok []
  | ch :: rest =>
    match StringTimeToMillis ch.start with
    | .error e => .error e
    | .ok m =>
      match parseStarts rest with
      | .error e => .error e
      | .ok ms => .ok (m :: ms)

/-- `AddCHAPAndCTOC(duration, tag, chapters)`: returns the list of frames
added to the tag (in order: one CHAP per chapter, then the CTOC), or the
error.  `durationNs` is `duration.TimeDuration` in nanoseconds;
`millis := uint32(duration.TimeDuration / time.Millisecond)`. -/
def AddCHAPAndCTOC (durationNs : Nat) (chapters : List Chapter) : Except Err (List Frame) :=
  if chapters.length = 0 then .ok []
  else if durationNs = 0 then .error .zeroDuration
  else
    let millis := durationNs / 1000000 % 2 ^ 32
    match parseStarts chapters with
    | .error e => .error e
    | .ok starts =>
      let ivs := chapterIntervals chapters starts millis
      .ok (ivs.map chapFrame ++ [ctocFrame (ivs.map ChapterInterval.elementID)])

/-! ### FFmpeg text metadata (`GetFFmpegChaptersTXT`, `WriteFFmpegMetadataFile`)

Text outputs are rune sequences (`List Char`); Go would UTF-8-encode them. -/

/-- The fixed first line `";FFMETADATA1\n"`. -/
def ffmetadataHeader : List Char := ";FFMETADATA1\n".data

/-- One `[CHAPTER]` block, as produced by
`fmt.Sprintf("\n[CHAPTER]\nTIMEBASE=1/1000\nSTART=%d\nEND=%d\ntitle=%s\n", ...)`. -/
def chapterTXTBlock (iv : ChapterInterval) : List Char :=
  "\n[CHAPTER]\nTIMEBASE=1/1000\nSTART=".data ++ (toString iv.startMillis).data
    ++ "\nEND=".data ++ (toString iv.endMillis).data
    ++ "\ntitle=".data ++ iv.title.data ++ "\n".data

/-- `GetFFmpegChaptersTXT(duration, chapters)`: `.ok none` models the Go
`return nil, nil` for an empty chapter list; otherwise the output starts
from the `;FFMETADATA1` header and appends one block per chapter. -/
def GetFFmpegChaptersTXT (durationNs : Nat) (chapters : List Chapter) :
    Except Err (Option (List Char)) :=
  if chapters.length = 0 then .ok none
  else if durationNs = 0 then .error .zeroDuration
  else
    let millis := durationNs / 1000000 % 2 ^ 32
    match parseStarts chapters with
    | .error e => .error e
    | .ok starts =>
      .ok (some ((chapterIntervals chapters starts millis).foldl
        (fun acc iv => acc ++ chapterTXTBlock iv) ffmetadataHeader))

/-- Go `unicode.IsSpace` (the White_Space property), used by
`strings.TrimSpace`. -/
def goIsSpace (c : Char) : Bool :=
  (9 ≤ c.toNat ∧ c.toNat ≤ 13) ∨ c = ' '
    ∨ c.toNat = 0x85 ∨ c.toNat = 0xA0 ∨ c.toNat = 0x1680
    ∨ (0x2000 ≤ c.toNat ∧ c.toNat ≤ 0x200A)
    ∨ c.toNat = 0x2028 ∨ c.toNat = 0x2029 ∨ c.toNat = 0x202F
    ∨ c.toNat = 0x205F ∨ c.toNat = 0x3000

/-- `strings.TrimSpace`: drop leading and trailing white space. -/
def trimSpace (s : List Char) : List Char :=
  ((s.dropWhile goIsSpace).reverse.dropWhile goIsSpace).reverse

/-- The `strings.Map` inside `appendKVPair`: remove `'\n'` and `'\r'`. -/
def stripLinefeeds (s : List Char) : List Char :=
  s.filter fun c => ¬(c = '\n' ∨ c = '\r')

/-- `appendKVPair(output, key, value)`: appends
`key + "=" + strings.TrimSpace(clean) + "\n"` where `clean` is the value
with linefeeds removed. -/
def appendKVPair (output : List Char) (key value : String) : List Char :=
  output ++ (key.data ++ "=".data ++ trimSpace (stripLinefeeds value.data) ++ "\n".data)

/-- Go `bytes.Replace(s, pat, nil, 1)`: remove the first occurrence of
`pat` from `s` (if any). -/
def removeFirstOcc : List Char → List Char → List Char
  | [], _ => []
  | c :: rest, pat =>
    if pat.isPrefixOf (c :: rest) then (c :: rest).drop pat.length
    else c :: removeFirstOcc rest pat

/-- A `time.Time` as used by `WriteFFmpegMetadataFile`: `none` is the zero
`time.Time` (whose year formats as `"0001"`), `some (y, mo, d)` a non-zero
time with that calendar date. -/
abbrev GoDate := Option (Nat × Nat × Nat)

/-- Zero-pad the decimal representation of `n` to `w` digits (Go's
`Format` padding for `"2006"`, `"01"`, `"02"`). -/
def padNat (w n : Nat) : List Char :=
  List.replicate (w - (toString n).length) '0' ++ (toString n).data

/-- `input.Date.Format("2006")`. -/
def formatYear : GoDate → List Char
  | none => "0001".data
  | some (y, _, _) => padNat 4 y

/-- `input.Date.Format("2006-01-02")`. -/
def formatDate (d : Nat × Nat × Nat) : List Char :=
  padNat 4 d.1 ++ "-".data ++ padNat 2 d.2.1 ++ "-".data ++ padNat 2 d.2.2

/-- The fields of `TrackInfo` that the modelled functions read. -/
structure TrackInfo where
  title : String := ""
  album : String := ""
  artist : String := ""
  genre : String := ""
  year : String := ""
  date : GoDate := none
  track : String := ""
  comment : String := ""
  description : String := ""
  language : String := ""
  copyright : String := ""
  chapters : List Chapter := []
deriving DecidableEq, Inhabited

/-- The `kvpairs` slice of `WriteFFmpegMetadataFile`: fixed field order,
the copyright value synthesized as `"Copyright <year> <artist>"`, and a
`date` pair appended only for a non-zero date. -/
def kvpairs (input : TrackInfo) : List (String × String) :=
  [("title", input.title), ("album", input.album), ("artist", input.artist),
   ("genre", input.genre), ("track", input.track), ("comment", input.comment),
   ("language", input.language), ("description", input.description),
   ("copyright", "Copyright " ++ (String.mk (formatYear input.date)) ++ " " ++ input.artist)]
    ++ (match input.date with
        | none => []
        | some d => [("date", String.mk (formatDate d))])

/-- The content `WriteFFmpegMetadataFile(duration, input)` writes to its
temporary file: the header, one `key=value` line per non-empty pair
(`len([]rune(v)) > 0`), then the chapters text with its own header line
removed by `bytes.Replace(..., 1)`. -/
def WriteFFmpegMetadataContent (durationNs : Nat) (input : TrackInfo) :
    Except Err (List Char) :=
  match GetFFmpegChaptersTXT durationNs input.chapters with
  | .error e => .error e
  | .ok chaptersOpt =>
    .ok ((kvpairs input).foldl
        (fun acc kv => if 0 < kv.2.length then appendKVPair acc kv.1 kv.2 else acc)
        ffmetadataHeader
      ++ (match chaptersOpt with
          | none => []
          | some s => removeFirstOcc s ffmetadataHeader))

/-- One optional `key=value` line: rendered iff the value is non-empty
(before sanitization); the rendered value has linefeeds removed and is
trimmed. -/
def optKVLine (key value : String) : List Char :=
  if 0 < value.length then
    key.data ++ "=".data ++ trimSpace (stripLinefeeds value.data) ++ "\n".data
  else []

/-! ### Parser lemmas -/

theorem digitVal_le (c : Char) (h : c.isDigit = true) : digitVal c ≤ 9 := by
  simp only [Char.isDigit, decide_eq_true_eq, Bool.and_eq_true] at h
  have h1 : c.toNat ≤ 57 := by
    have := h.2
    simp only [Char.le_def] at this
    exact this
  simp only [digitVal]
  omega

theorem digitsToNat_aux_lt (l : List Char) (a : Nat) (h : l.all Char.isDigit = true) :
    l.foldl (fun x c => x * 10 + digitVal c) a < (a + 1) * 10 ^ l.length := by
  induction l generalizing a with
  | nil =>
    simp only [List.foldl_nil, List.length_nil, pow_zero, mul_one]
    exact Nat.lt_succ_self a
  | cons c rest ih =>
    simp only [List.all_cons, Bool.and_eq_true] at h
    have hc : digitVal c ≤ 9 := digitVal_le c h.1
    have step := ih (a * 10 + digitVal c) h.2
    have hle : (a * 10 + digitVal c + 1) * 10 ^ rest.length ≤ (a + 1) * 10 ^ (rest.length + 1) := by
      have : a * 10 + digitVal c + 1 ≤ (a + 1) * 10 := by omega
      calc (a * 10 + digitVal c + 1) * 10 ^ rest.length
          ≤ ((a + 1) * 10) * 10 ^ rest.length := Nat.mul_le_mul_right _ this
        _ = (a + 1) * 10 ^ (rest.length + 1) := by ring
    simpa [List.foldl_cons, List.length_cons] using lt_of_lt_of_le step hle

theorem digitsToNat_lt (l : List Char) (h : l.all Char.isDigit = true) :
    digitsToNat l < 10 ^ l.length := by
  simpa [digitsToNat] using digitsToNat_aux_lt l 0 h

theorem goAtoi_toNat_lt (s : List Char) (n : Int) (h : goAtoi s = some n) :
    n.toNat < 10 ^ s.length := by
  unfold goAtoi at h
  split at h
  case _ rest =>
    split at h
    · have hn : n = -(digitsToNat rest : Int) := by
        injection h with h'; omega
      have : n.toNat = 0 := by
        rw [hn]
        simp
      rw [this]
      exact Nat.pos_pow_of_pos _ (by norm_num)
    · exact absurd h (by simp)
  case _ rest =>
    split at h
    case isTrue hd =>
      have hn : n = (digitsToNat rest : Int) := by injection h with h'; omega
      have : n.toNat = digitsToNat rest := by rw [hn]; simp
      rw [this]
      calc digitsToNat rest < 10 ^ rest.length := digitsToNat_lt rest hd
        _ ≤ 10 ^ ('+' :: rest).length := Nat.pow_le_pow_right (by norm_num) (by simp)
    case isFalse => exact absurd h (by simp)
  case _ =>
    split at h
    case isTrue hd =>
      have hn : n = (digitsToNat s : Int) := by injection h with h'; omega
      have : n.toNat = digitsToNat s := by rw [hn]; simp
      rw [this]
      exact digitsToNat_lt s hd
    case isFalse => exact absurd h (by simp)

theorem parseNanoseconds_lt (v : List Char) (nbytes ns : Nat)
    (h : parseNanoseconds v nbytes = some ns) : ns < 1000000000 := by
  unfold parseNanoseconds at h
  split at h
  · exact absurd h (by simp)
  case _ c rest =>
    split at h
    case isFalse => exact absurd h (by simp)
    case isTrue =>
      split at h
      case _ => exact absurd h (by simp)
      case _ x hx =>
        split at h
        case isTrue => exact absurd h (by simp)
        case isFalse hneg =>
          simp only [Option.some.injEq] at h
          have hxlt : x.toNat < 10 ^ (rest.take (min nbytes 10 - 1)).length :=
            goAtoi_toNat_lt _ _ hx
          have hlen : (rest.take (min nbytes 10 - 1)).length ≤ min nbytes 10 - 1 := by
            simp [List.length_take]
          have hxlt' : x.toNat < 10 ^ (min nbytes 10 - 1) :=
            lt_of_lt_of_le hxlt (Nat.pow_le_pow_right (by norm_num) hlen)
          rw [← h]
          rcases Nat.eq_zero_or_pos (min nbytes 10) with h0 | h1
          · have hx0 : x.toNat = 0 := by
              rw [h0] at hxlt'
              simpa using hxlt'
            simp [hx0]
          · have hpow : 10 ^ (min nbytes 10 - 1) * 10 ^ (10 - min nbytes 10) = 10 ^ 9 := by
              rw [← pow_add]
              congr 1
              have : min nbytes 10 ≤ 10 := Nat.min_le_right _ _
              omega
            calc x.toNat * 10 ^ (10 - min nbytes 10)
                < 10 ^ (min nbytes 10 - 1) * 10 ^ (10 - min nbytes 10) :=
                  mul_lt_mul_of_pos_right hxlt' (Nat.pos_pow_of_pos _ (by norm_num))
              _ = 10 ^ 9 := hpow
              _ ≤ 1000000000 := by norm_num

theorem parseFrac_lt (f : Option Nat) (s : List Char) (ns : Nat)
    (h : parseFrac f s = some ns) : ns < 1000000000 := by
  unfold parseFrac at h
  split at h
  case _ d s3 =>
    split at h
    case isTrue => exact absurd h (by simp)
    case isFalse =>
      split at h
      case _ => exact absurd h (by simp)
      case _ x hx =>
        split at h
        case isTrue =>
          simp only [Option.some.injEq] at h
          rw [← h]
          exact parseNanoseconds_lt _ _ _ hx
        case isFalse => exact absurd h (by simp)
  case _ =>
    simp only [Option.some.injEq] at h
    omega
  case _ c rest =>
    split at h
    case isTrue =>
      split at h
      case _ => exact absurd h (by simp)
      case _ x hx =>
        split at h
        case isTrue =>
          simp only [Option.some.injEq] at h
          rw [← h]
          exact parseNanoseconds_lt _ _ _ hx
        case isFalse => exact absurd h (by simp)
    case isFalse => exact absurd h (by simp)

theorem parseHMS_bounds (f : Option Nat) (s : List Char) (hr mr sr nr : Nat)
    (hp : parseHMS f s = some (hr, mr, sr, nr)) :
    hr < 24 ∧ mr < 60 ∧ sr < 60 ∧ nr < 1000000000 := by
  unfold parseHMS at hp
  split at hp
  · exact absurd hp (by simp)
  case _ ha s1 =>
    split at hp
    case isTrue => exact absurd hp (by simp)
    case isFalse hh =>
      split at hp
      case _ s1' =>
        split at hp
        · exact absurd hp (by simp)
        case _ ma s2 =>
          split at hp
          case isTrue => exact absurd hp (by simp)
          case isFalse hm =>
            split at hp
            case _ s2' =>
              split at hp
              · exact absurd hp (by simp)
              case _ sa s3 =>
                split at hp
                case isTrue => exact absurd hp (by simp)
                case isFalse hs =>
                  split at hp
                  case _ => exact absurd hp (by simp)
                  case _ na hns =>
                    simp only [Option.some.injEq, Prod.mk.injEq] at hp
                    obtain ⟨e1, e2, e3, e4⟩ := hp
                    subst e1; subst e2; subst e3; subst e4
                    exact ⟨by omega, by omega, by omega, parseFrac_lt _ _ _ hns⟩
            case _ => exact absurd hp (by simp)
      case _ => exact absurd hp (by simp)

theorem StringTimeToTime_bounds (t : String) (hr mr sr nr : Nat)
    (h : StringTimeToTime t = .ok (hr, mr, sr, nr)) :
    hr < 24 ∧ mr < 60 ∧ sr < 60 ∧ nr < 1000000000 := by
  unfold StringTimeToTime at h
  split at h
  case _ r h3 =>
    simp only [Except.ok.injEq] at h
    subst h
    exact parseHMS_bounds _ _ _ _ _ _ h3
  case _ =>
    split at h
    case _ r h1 =>
      simp only [Except.ok.injEq] at h
      subst h
      exact parseHMS_bounds _ _ _ _ _ _ h1
    case _ =>
      split at h
      case _ r h0 =>
        simp only [Except.ok.injEq] at h
        subst h
        exact parseHMS_bounds _ _ _ _ _ _ h0
      case _ => exact absurd h (by simp)

theorem StringTimeToTime_error_eq (t : String) (e : Err)
    (h : StringTimeToTime t = .error e) : e = .malformedTimeCode := by
  unfold StringTimeToTime at h
  split at h
  · exact absurd h (by simp)
  split at h
  · exact absurd h (by simp)
  split at h
  · exact absurd h (by simp)
  simp only [Except.error.injEq] at h
  exact h.symm

/-- Arithmetic core of `StringTimeToMillis`: with in-range clock
components, the nanosecond total divided to milliseconds and cast to
`uint32` is the plain millisecond formula (no wrap occurs). -/
theorem clockMillis_eq (hr mr sr nr : Nat) (h1 : hr < 24) (h2 : mr < 60) (h3 : sr < 60)
    (h4 : nr < 1000000000) :
    (hr * 3600000000000 + mr * 60000000000 + sr * 1000000000 + nr) / 1000000 % 2 ^ 32
      = hr * 3600000 + mr * 60000 + sr * 1000 + nr / 1000000 := by
  have e1 : hr * 3600000000000 + mr * 60000000000 + sr * 1000000000 + nr
      = 1000000 * (hr * 3600000 + mr * 60000 + sr * 1000) + nr := by ring
  rw [e1, Nat.mul_add_div (by norm_num)]
  have hdiv : nr / 1000000 < 1000 := Nat.div_lt_of_lt_mul (by omega)
  have h32 : (2 : Nat) ^ 32 = 4294967296 := by norm_num
  rw [h32]
  apply Nat.mod_eq_of_lt
  omega

theorem StringTimeToMillis_ok_shape (t : String) (m : Nat)
    (h : StringTimeToMillis t = .ok m) :
    ∃ hr mr sr nr, StringTimeToTime t = .ok (hr, mr, sr, nr)
      ∧ m = hr * 3600000 + mr * 60000 + sr * 1000 + nr / 1000000
      ∧ hr < 24 ∧ mr < 60 ∧ sr < 60 ∧ nr < 1000000000 := by
  unfold StringTimeToMillis at h
  split at h
  · exact absurd h (by simp)
  case _ hr mr sr nr hq =>
    obtain ⟨b1, b2, b3, b4⟩ := StringTimeToTime_bounds t hr mr sr nr hq
    simp only [Except.ok.injEq] at h
    exact ⟨hr, mr, sr, nr, hq, by rw [← h, clockMillis_eq hr mr sr nr b1 b2 b3 b4],
      b1, b2, b3, b4⟩

theorem StringTimeToMillis_of_time (t : String) (hr mr sr nr : Nat)
    (h : StringTimeToTime t = .ok (hr, mr, sr, nr)) :
    StringTimeToMillis t = .ok (hr * 3600000 + mr * 60000 + sr * 1000 + nr / 1000000) := by
  obtain ⟨b1, b2, b3, b4⟩ := StringTimeToTime_bounds t hr mr sr nr h
  unfold StringTimeToMillis
  rw [h]
  exact congrArg Except.ok (clockMillis_eq hr mr sr nr b1 b2 b3 b4)

theorem StringTimeToMillis_error_eq (t : String) (e : Err)
    (h : StringTimeToMillis t = .error e) : e = .malformedTimeCode := by
  unfold StringTimeToMillis at h
  split at h
  case _ e' he =>
    simp only [Except.error.injEq] at h
    subst h
    exact StringTimeToTime_error_eq t e' he
  case _ => exact absurd h (by simp)

/-! ### `parseStarts` lemmas -/

theorem parseStarts_length (l : List Chapter) (s : List Nat) (h : parseStarts l = .ok s) :
    s.length = l.length := by
  induction l generalizing s with
  | nil =>
    unfold parseStarts at h
    simp only [Except.ok.injEq] at h
    subst h
    rfl
  | cons ch rest ih =>
    unfold parseStarts at h
    split at h
    · exact absurd h (by simp)
    case _ m hm =>
      split at h
      · exact absurd h (by simp)
      case _ ms hms =>
        simp only [Except.ok.injEq] at h
        subst h
        simp [ih ms hms]

theorem parseStarts_error_eq (l : List Chapter) (e : Err) (h : parseStarts l = .error e) :
    e = .malformedTimeCode := by
  induction l with
  | nil =>
    unfold parseStarts at h
    exact absurd h (by simp)
  | cons ch rest ih =>
    unfold parseStarts at h
    split at h
    case _ e' he =>
      simp only [Except.error.injEq] at h
      subst h
      exact StringTimeToMillis_error_eq ch.start e' he
    case _ m hm =>
      split at h
      case _ e' he =>
        simp only [Except.error.injEq] at h
        subst h
        exact ih he
      case _ => exact absurd h (by simp)

theorem parseStarts_ok_mem (l : List Chapter) (s : List Nat) (h : parseStarts l = .ok s)
    (ch : Chapter) (hmem : ch ∈ l) : ∃ m, StringTimeToMillis ch.start = .ok m := by
  induction l generalizing s with
  | nil => cases hmem
  | cons ch0 rest ih =>
    unfold parseStarts at h
    split at h
    · exact absurd h (by simp)
    case _ m hm0 =>
      split at h
      · exact absurd h (by simp)
      case _ ms hms =>
        cases hmem with
        | head => exact ⟨m, hm0⟩
        | tail _ hmem' => exact ih ms hms hmem'

/-- A chapter list with an unparseable start cannot pass `parseStarts`:
the result is the `MalformedTimeCode` error. -/
theorem parseStarts_error_of_bad (l : List Chapter) (ch : Chapter) (hmem : ch ∈ l)
    (hbad : StringTimeToMillis ch.start = .error .malformedTimeCode) :
    parseStarts l = .error .malformedTimeCode := by
  match hps : parseStarts l with
  | .ok s =>
    obtain ⟨m, hm⟩ := parseStarts_ok_mem l s hps ch hmem
    rw [hm] at hbad
    exact absurd hbad (by simp)
  | .error e =>
    rw [parseStarts_error_eq l e hps]

/-! ### Fold and output-shape lemmas -/

theorem foldl_append_eq {α β : Type} (g : α → List β) (l : List α) (init : List β) :
    l.foldl (fun acc x => acc ++ g x) init = init ++ (l.map g).flatten := by
  induction l generalizing init with
  | nil => simp
  | cons x rest ih => simp [ih]

theorem removeFirstOcc_of_append (pat rest : List Char) (hne : pat ≠ []) :
    removeFirstOcc (pat ++ rest) pat = rest := by
  match pat, hne with
  | p :: ps, _ =>
    show removeFirstOcc (p :: (ps ++ rest)) (p :: ps) = rest
    unfold removeFirstOcc
    rw [if_pos]
    · show (p :: (ps ++ rest)).drop (p :: ps).length = rest
      have e : p :: (ps ++ rest) = (p :: ps) ++ rest := rfl
      rw [e, List.drop_left]
    · have e : p :: (ps ++ rest) = (p :: ps) ++ rest := rfl
      rw [e]
      simp only [List.isPrefixOf_iff_prefix]
      exact List.prefix_append _ _

/-- The success equation of `AddCHAPAndCTOC` on a non-empty chapter list
with non-zero duration and parseable starts. -/
theorem AddCHAPAndCTOC_ok (durationNs : Nat) (chapters : List Chapter) (starts : List Nat)
    (hne : chapters ≠ []) (hd : durationNs ≠ 0) (hp : parseStarts chapters = .ok starts) :
    AddCHAPAndCTOC durationNs chapters
      = .ok ((chapterIntervals chapters starts (durationNs / 1000000 % 2 ^ 32)).map chapFrame
          ++ [ctocFrame ((chapterIntervals chapters starts
                (durationNs / 1000000 % 2 ^ 32)).map ChapterInterval.elementID)]) := by
  unfold AddCHAPAndCTOC
  rw [if_neg (by simpa using hne), if_neg hd, hp]

/-- The success equation of `GetFFmpegChaptersTXT` on a non-empty chapter
list with non-zero duration and parseable starts. -/
theorem GetFFmpegChaptersTXT_ok (durationNs : Nat) (chapters : List Chapter)
    (starts : List Nat) (hne : chapters ≠ []) (hd : durationNs ≠ 0)
    (hp : parseStarts chapters = .ok starts) :
    GetFFmpegChaptersTXT durationNs chapters
      = .ok (some (ffmetadataHeader
          ++ ((chapterIntervals chapters starts (durationNs / 1000000 % 2 ^ 32)).map
                chapterTXTBlock).flatten)) := by
  unfold GetFFmpegChaptersTXT
  rw [if_neg (by simpa using hne), if_neg hd, hp]
  show Except.ok (some ((chapterIntervals chapters starts
      (durationNs / 1000000 % 2 ^ 32)).foldl
      (fun acc iv => acc ++ chapterTXTBlock iv) ffmetadataHeader)) = _
  rw [foldl_append_eq]

theorem chapterIntervals_length (chapters : List Chapter) (starts : List Nat) (millis : Nat) :
    (chapterIntervals chapters starts millis).length = chapters.length := by
  simp [chapterIntervals]

theorem chapterIntervals_getElem? (chapters : List Chapter) (starts : List Nat)
    (millis i : Nat) (hi : i < chapters.length) :
    (chapterIntervals chapters starts millis)[i]? = some
      { elementID := toString (i + 1)
        startMillis := starts.getD i 0
        endMillis := if i < chapters.length - 1 then starts.getD (i + 1) 0 else millis
        title := (chapters.getD i default).title } := by
  simp [chapterIntervals, List.getElem?_range hi]

theorem kvfold_eq (l : List (String × String)) (init : List Char) :
    l.foldl (fun acc kv => if 0 < kv.2.length then appendKVPair acc kv.1 kv.2 else acc) init
      = init ++ (l.map (fun kv => optKVLine kv.1 kv.2)).flatten := by
  induction l generalizing init with
  | nil => simp
  | cons kv rest ih =>
    simp only [List.foldl_cons, List.map_cons, List.flatten_cons]
    by_cases hc : 0 < kv.2.length
    · rw [if_pos hc, ih]
      simp [appendKVPair, optKVLine, if_pos hc, List.append_assoc]
    · rw [if_neg hc, ih]
      have hz : kv.2.length = 0 := by omega
      simp [optKVLine, hc]

/-! ### Claim theorems -/

theorem pairBytes_length (l : List Char) :
    ((l.map (fun r => [r.toNat % 256, 0x00])).flatten).length = 2 * l.length := by
  induction l with
  | nil => simp
  | cons c rest ih =>
    simp only [List.map_cons, List.flatten_cons, List.length_append, List.length_cons, ih]
    simp
    omega

/-- C7: for every string, `TextFrame` returns exactly the encoding-marker
byte `0x01`, the little-endian byte-order mark `0xFF 0xFE`, then for each
character of the input two bytes: the low byte of its Unicode scalar value
followed by a zero high byte (no surrogate-pair encoding for code points
above `0xFF`); hence the output length is `3 + 2 * (number of characters)`. -/
theorem textframe_layout (s : String) :
    TextFrame s = [0x01, 0xFF, 0xFE]
        ++ (s.data.map (fun r => [r.toNat % 256, 0x00])).flatten
      ∧ (TextFrame s).length = 3 + 2 * s.data.length := by
  have h1 : TextFrame s = [0x01, 0xFF, 0xFE]
      ++ (s.data.map (fun r => [r.toNat % 256, 0x00])).flatten := by
    unfold TextFrame
    exact foldl_append_eq _ _ _
  refine ⟨h1, ?_⟩
  rw [h1, List.length_append, pairBytes_length]
  rfl

/-- C2: `StringTimeToMillis` tries the three formats (3-digit fraction,
1-digit fraction, no fraction) in that fixed order; the first that parses
wins; if none parses the result is the `MalformedTimeCode` error
(`ErrBadChapterStartTime`); and on success the millisecond result equals
`hours*3600000 + minutes*60000 + seconds*1000 + fractional milliseconds`. -/
theorem time_parser_priority (t : String) :
    (∀ r, parseHMS (some 3) t.data = some r → StringTimeToTime t = .ok r)
    ∧ (∀ r, parseHMS (some 3) t.data = none → parseHMS (some 1) t.data = some r →
        StringTimeToTime t = .ok r)
    ∧ (∀ r, parseHMS (some 3) t.data = none → parseHMS (some 1) t.data = none →
        parseHMS none t.data = some r → StringTimeToTime t = .ok r)
    ∧ (parseHMS (some 3) t.data = none → parseHMS (some 1) t.data = none →
        parseHMS none t.data = none →
        StringTimeToTime t = .error .malformedTimeCode
          ∧ StringTimeToMillis t = .error .malformedTimeCode)
    ∧ (∀ hr mr sr nr, StringTimeToTime t = .ok (hr, mr, sr, nr) →
        StringTimeToMillis t = .ok (hr * 3600000 + mr * 60000 + sr * 1000 + nr / 1000000)) := by
  refine ⟨?_, ?_, ?_, ?_, ?_⟩
  · intro r h3
    unfold StringTimeToTime
    rw [h3]
  · intro r h3 h1
    unfold StringTimeToTime
    rw [h3, h1]
  · intro r h3 h1 h0
    unfold StringTimeToTime
    rw [h3, h1, h0]
  · intro h3 h1 h0
    have ht : StringTimeToTime t = .error .malformedTimeCode := by
      unfold StringTimeToTime
      rw [h3, h1, h0]
    refine ⟨ht, ?_⟩
    unfold StringTimeToMillis
    rw [ht]
  · intro hr mr sr nr h
    exact StringTimeToMillis_of_time t hr mr sr nr h

/-- Witness for C2 at `"00:00:20.5"`: the 3-digit-fraction format fails,
the 1-digit one parses, and the millisecond formula gives 20500. -/
theorem time_parser_priority_witness :
    StringTimeToTime "00:00:20.5" = .ok (0, 0, 20, 500000000)
      ∧ StringTimeToMillis "00:00:20.5" = .ok 20500 := by
  have h := time_parser_priority "00:00:20.5"
  have ht := h.2.1 (0, 0, 20, 500000000) (by decide) (by decide)
  have hm := h.2.2.2.2 0 0 20 500000000 ht
  norm_num at hm
  exact ⟨ht, hm⟩

/-- C10: parsed clock components are bounded (hour ≤ 23, minute ≤ 59,
second ≤ 59), inputs with out-of-range components such as `"25:00:00"`,
`"00:60:00"`, `"00:00:60"` fail with `MalformedTimeCode`, and consequently
every successfully parsed time-code value is strictly below 86,400,000
milliseconds (24 hours). -/
theorem timecode_bounds (t : String) :
    (∀ hr mr sr nr, StringTimeToTime t = .ok (hr, mr, sr, nr) →
        hr ≤ 23 ∧ mr ≤ 59 ∧ sr ≤ 59)
    ∧ (∀ ms, StringTimeToMillis t = .ok ms → ms < 86400000)
    ∧ StringTimeToTime "25:00:00" = .error .malformedTimeCode
    ∧ StringTimeToMillis "25:00:00" = .error .malformedTimeCode
    ∧ StringTimeToTime "00:60:00" = .error .malformedTimeCode
    ∧ StringTimeToMillis "00:60:00" = .error .malformedTimeCode
    ∧ StringTimeToTime "00:00:60" = .error .malformedTimeCode
    ∧ StringTimeToMillis "00:00:60" = .error .malformedTimeCode := by
  refine ⟨?_, ?_, by decide, by decide, by decide, by decide, by decide, by decide⟩
  · intro hr mr sr nr h
    obtain ⟨b1, b2, b3, _⟩ := StringTimeToTime_bounds t hr mr sr nr h
    omega
  · intro ms h
    obtain ⟨hr, mr, sr, nr, _, he, b1, b2, b3, b4⟩ := StringTimeToMillis_ok_shape t ms h
    have hf : nr / 1000000 < 1000 := Nat.div_lt_of_lt_mul (by omega)
    omega

/-- Witness for C10: `"23:59:59.999"` parses to 86,399,999 ms, which the
theorem bounds below 86,400,000. -/
theorem timecode_bounds_witness :
    StringTimeToMillis "23:59:59.999" = .ok 86399999 ∧ (86399999 : Nat) < 86400000 :=
  ⟨by decide, (timecode_bounds "23:59:59.999").2.1 86399999 (by decide)⟩

/-- C1: on a successful run of `AddCHAPAndCTOC`, the `i`-th CHAP frame's
body is exactly: the elementID (`i+1` in decimal ASCII) and a NUL byte,
the 4-byte big-endian start and end times, `0xFFFFFFFF` twice for the byte
offsets, then the embedded title sub-record `"TIT2"`, the 4-byte
big-endian length of the encoded title payload, two zero flag bytes, and
the `TextFrame`-encoded title payload. -/
theorem chap_record_layout (durationNs : Nat) (chapters : List Chapter) (starts : List Nat)
    (i : Nat) (hd : durationNs ≠ 0) (hp : parseStarts chapters = .ok starts)
    (hi : i < chapters.length) :
    ∃ frames, AddCHAPAndCTOC durationNs chapters = .ok frames ∧
      frames[i]? = some ("CHAP",
        asciiBytes (toString (i + 1)) ++ [0x00]
          ++ u32be (starts.getD i 0)
          ++ u32be (if i < chapters.length - 1 then starts.getD (i + 1) 0
                    else durationNs / 1000000 % 2 ^ 32)
          ++ [0xFF, 0xFF, 0xFF, 0xFF] ++ [0xFF, 0xFF, 0xFF, 0xFF]
          ++ asciiBytes "TIT2"
          ++ u32be ((TextFrame (chapters.getD i default).title).length % 2 ^ 32)
          ++ [0x00, 0x00]
          ++ TextFrame (chapters.getD i default).title) := by
  have hne : chapters ≠ [] := by
    intro he
    rw [he] at hi
    exact absurd hi (by simp)
  refine ⟨_, AddCHAPAndCTOC_ok durationNs chapters starts hne hd hp, ?_⟩
  rw [List.getElem?_append_left (by
    rw [List.length_map, chapterIntervals_length]
    exact hi)]
  rw [List.getElem?_map, chapterIntervals_getElem? chapters starts _ i hi]
  rfl

/-- Witness for C1: two chapters, 30-second duration, first CHAP frame. -/
theorem chap_record_layout_witness :
    ∃ frames,
      AddCHAPAndCTOC 30000000000 [⟨"Hi", "00:00:00.000"⟩, ⟨"Yo", "00:00:10"⟩] = .ok frames ∧
      frames[0]? = some ("CHAP",
        asciiBytes (toString (0 + 1)) ++ [0x00]
          ++ u32be ([0, 10000].getD 0 0)
          ++ u32be (if 0 < ([⟨"Hi", "00:00:00.000"⟩, ⟨"Yo", "00:00:10"⟩] :
                      List Chapter).length - 1 then [0, 10000].getD (0 + 1) 0
                    else 30000000000 / 1000000 % 2 ^ 32)
          ++ [0xFF, 0xFF, 0xFF, 0xFF] ++ [0xFF, 0xFF, 0xFF, 0xFF]
          ++ asciiBytes "TIT2"
          ++ u32be ((TextFrame (([⟨"Hi", "00:00:00.000"⟩, ⟨"Yo", "00:00:10"⟩] :
                      List Chapter).getD 0 default).title).length % 2 ^ 32)
          ++ [0x00, 0x00]
          ++ TextFrame (([⟨"Hi", "00:00:00.000"⟩, ⟨"Yo", "00:00:10"⟩] :
                List Chapter).getD 0 default).title) :=
  chap_record_layout 30000000000 [⟨"Hi", "00:00:00.000"⟩, ⟨"Yo", "00:00:10"⟩]
    [0, 10000] 0 (by decide) (by decide) (by decide)

/-- C3: when every start parses and the duration is positive, the computed
intervals chain: `interval[i].end = interval[i+1].start` for `i < N-1`,
the last interval ends at the total duration in milliseconds, the `i`-th
interval carries elementID `i+1` in decimal and the `i`-th chapter's
title, in input order; `AddCHAPAndCTOC` then succeeds with exactly these
intervals. -/
theorem interval_chaining (durationNs millis : Nat) (chapters : List Chapter)
    (starts : List Nat) (hp : parseStarts chapters = .ok starts)
    (hm : millis = durationNs / 1000000 % 2 ^ 32) (hD : 0 < millis) :
    (chapters ≠ [] → AddCHAPAndCTOC durationNs chapters
        = .ok ((chapterIntervals chapters starts millis).map chapFrame
            ++ [ctocFrame ((chapterIntervals chapters starts millis).map
                  ChapterInterval.elementID)]))
    ∧ (∀ i, i + 1 < chapters.length →
        ((chapterIntervals chapters starts millis).getD i default).endMillis
          = ((chapterIntervals chapters starts millis).getD (i + 1) default).startMillis)
    ∧ (chapters ≠ [] →
        ((chapterIntervals chapters starts millis).getD (chapters.length - 1)
            default).endMillis = millis)
    ∧ (∀ i, i < chapters.length →
        ((chapterIntervals chapters starts millis).getD i default).elementID
            = toString (i + 1)
          ∧ ((chapterIntervals chapters starts millis).getD i default).startMillis
            = starts.getD i 0
          ∧ ((chapterIntervals chapters starts millis).getD i default).title
            = (chapters.getD i default).title) := by
  have hd : durationNs ≠ 0 := by
    intro h0
    rw [h0] at hm
    simp at hm
    omega
  refine ⟨?_, ?_, ?_, ?_⟩
  · intro hne
    rw [hm]
    exact AddCHAPAndCTOC_ok durationNs chapters starts hne hd hp
  · intro i hi1
    rw [List.getD_eq_getElem?_getD, List.getD_eq_getElem?_getD,
      chapterIntervals_getElem? chapters starts millis i (by omega),
      chapterIntervals_getElem? chapters starts millis (i + 1) hi1]
    simp only [Option.getD_some]
    rw [if_pos (by omega)]
  · intro hne
    have hlen : 0 < chapters.length := List.length_pos.mpr hne
    rw [List.getD_eq_getElem?_getD,
      chapterIntervals_getElem? chapters starts millis (chapters.length - 1) (by omega)]
    simp only [Option.getD_some]
    rw [if_neg (by omega)]
  · intro i hi
    rw [List.getD_eq_getElem?_getD, chapterIntervals_getElem? chapters starts millis i hi]
    exact ⟨rfl, rfl, rfl⟩

/-- Witness for C3: the three-chapter scenario with total duration
30000 ms: interval 0 ends where interval 1 starts, and the last interval
ends at 30000. -/
theorem interval_chaining_witness :
    ((chapterIntervals
        [⟨"Chapter 1", "00:00:00.000"⟩, ⟨"Chapter 2", "00:00:10"⟩, ⟨"Chapter 3", "00:00:20.5"⟩]
        [0, 10000, 20500] 30000).getD 0 default).endMillis
      = ((chapterIntervals
        [⟨"Chapter 1", "00:00:00.000"⟩, ⟨"Chapter 2", "00:00:10"⟩, ⟨"Chapter 3", "00:00:20.5"⟩]
        [0, 10000, 20500] 30000).getD 1 default).startMillis
    ∧ ((chapterIntervals
        [⟨"Chapter 1", "00:00:00.000"⟩, ⟨"Chapter 2", "00:00:10"⟩, ⟨"Chapter 3", "00:00:20.5"⟩]
        [0, 10000, 20500] 30000).getD 2 default).endMillis = 30000 :=
  ⟨(interval_chaining 30000000000 30000
      [⟨"Chapter 1", "00:00:00.000"⟩, ⟨"Chapter 2", "00:00:10"⟩, ⟨"Chapter 3", "00:00:20.5"⟩]
      [0, 10000, 20500] (by decide) (by decide) (by decide)).2.1 0 (by decide),
   (interval_chaining 30000000000 30000
      [⟨"Chapter 1", "00:00:00.000"⟩, ⟨"Chapter 2", "00:00:10"⟩, ⟨"Chapter 3", "00:00:20.5"⟩]
      [0, 10000, 20500] (by decide) (by decide) (by decide)).2.2.1 (by decide)⟩

/-- C4: `AddCHAPAndCTOC` and `GetFFmpegChaptersTXT` return the
`ZeroDuration` error iff the chapter list is non-empty and the duration is
zero; with an empty chapter list they return immediately with no error and
no frames/output, whatever the duration (the duration check is never
reached). -/
theorem zero_duration_iff (durationNs : Nat) (chapters : List Chapter) :
    (AddCHAPAndCTOC durationNs chapters = .error .zeroDuration
      ↔ chapters ≠ [] ∧ durationNs = 0)
    ∧ (GetFFmpegChaptersTXT durationNs chapters = .error .zeroDuration
      ↔ chapters ≠ [] ∧ durationNs = 0)
    ∧ AddCHAPAndCTOC durationNs [] = .ok []
    ∧ GetFFmpegChaptersTXT durationNs [] = .ok none := by
  refine ⟨?_, ?_, rfl, rfl⟩
  · constructor
    · intro h
      by_cases hne : chapters = []
      · rw [hne] at h
        exact absurd h (by simp [AddCHAPAndCTOC])
      · by_cases hd : durationNs = 0
        · exact ⟨hne, hd⟩
        · exfalso
          unfold AddCHAPAndCTOC at h
          rw [if_neg (by simpa using hne), if_neg hd] at h
          cases hps : parseStarts chapters with
          | ok s =>
            rw [hps] at h
            exact absurd h (by simp)
          | error e =>
            rw [hps] at h
            simp only [Except.error.injEq] at h
            have := parseStarts_error_eq chapters e hps
            rw [this] at h
            exact absurd h (by simp)
    · rintro ⟨hne, hd⟩
      unfold AddCHAPAndCTOC
      rw [if_neg (by simpa using hne), if_pos hd]
  · constructor
    · intro h
      by_cases hne : chapters = []
      · rw [hne] at h
        exact absurd h (by simp [GetFFmpegChaptersTXT])
      · by_cases hd : durationNs = 0
        · exact ⟨hne, hd⟩
        · exfalso
          unfold GetFFmpegChaptersTXT at h
          rw [if_neg (by simpa using hne), if_neg hd] at h
          cases hps : parseStarts chapters with
          | ok s =>
            rw [hps] at h
            exact absurd h (by simp)
          | error e =>
            rw [hps] at h
            simp only [Except.error.injEq] at h
            have := parseStarts_error_eq chapters e hps
            rw [this] at h
            exact absurd h (by simp)
    · rintro ⟨hne, hd⟩
      unfold GetFFmpegChaptersTXT
      rw [if_neg (by simpa using hne), if_pos hd]

/-- Witness for C4: one chapter and zero duration yields `ZeroDuration`. -/
theorem zero_duration_iff_witness :
    AddCHAPAndCTOC 0 [⟨"A", "00:00:01"⟩] = .error .zeroDuration
    ∧ GetFFmpegChaptersTXT 0 [⟨"A", "00:00:01"⟩] = .error .zeroDuration :=
  ⟨(zero_duration_iff 0 [⟨"A", "00:00:01"⟩]).1.mpr ⟨by decide, rfl⟩,
   (zero_duration_iff 0 [⟨"A", "00:00:01"⟩]).2.1.mpr ⟨by decide, rfl⟩⟩

/-- C5: if some chapter's start string fails to parse (and the duration is
non-zero, so the parse stage is reached), both `AddCHAPAndCTOC` and
`GetFFmpegChaptersTXT` return the `MalformedTimeCode` error and produce
nothing: the error return carries no frames and no text (the Go code
parses every start before building any output, so nothing has been added
to the tag either). -/
theorem parse_error_atomic (durationNs : Nat) (chapters : List Chapter) (ch : Chapter)
    (hmem : ch ∈ chapters)
    (hbad : StringTimeToMillis ch.start = .error .malformedTimeCode)
    (hd : durationNs ≠ 0) :
    AddCHAPAndCTOC durationNs chapters = .error .malformedTimeCode
    ∧ GetFFmpegChaptersTXT durationNs chapters = .error .malformedTimeCode := by
  have hne : chapters ≠ [] := by
    intro he
    rw [he] at hmem
    cases hmem
  have hps := parseStarts_error_of_bad chapters ch hmem hbad
  constructor
  · unfold AddCHAPAndCTOC
    rw [if_neg (by simpa using hne), if_neg hd, hps]
  · unfold GetFFmpegChaptersTXT
    rw [if_neg (by simpa using hne), if_neg hd, hps]

/-- Witness for C5: the chapter list `[("A","00:00:01"), ("B","10:99")]`
(the spec's malformed example) makes both functions fail. -/
theorem parse_error_atomic_witness :
    AddCHAPAndCTOC 1000000000 [⟨"A", "00:00:01"⟩, ⟨"B", "10:99"⟩]
        = .error .malformedTimeCode
    ∧ GetFFmpegChaptersTXT 1000000000 [⟨"A", "00:00:01"⟩, ⟨"B", "10:99"⟩]
        = .error .malformedTimeCode :=
  parse_error_atomic 1000000000 [⟨"A", "00:00:01"⟩, ⟨"B", "10:99"⟩] ⟨"B", "10:99"⟩
    (by decide) (by decide) (by decide)

/-- C6: on a successful run, the last frame added is the CTOC whose body
is exactly `"toc"` + NUL, the two flag bytes `0x01 0x00`, one byte holding
the child count (`N` as a byte, i.e. `N % 256`, which equals `N` whenever
`N ≤ 255`), then each chapter's elementID as NUL-terminated ASCII in CHAP
order; and no CTOC is emitted for an empty chapter list. -/
theorem ctoc_record_layout (durationNs : Nat) (chapters : List Chapter) (starts : List Nat)
    (hd : durationNs ≠ 0) (hp : parseStarts chapters = .ok starts)
    (hne : chapters ≠ []) :
    (∃ frames, AddCHAPAndCTOC durationNs chapters = .ok frames
      ∧ frames.getLast? = some ("CTOC",
          asciiBytes "toc" ++ [0x00] ++ [0x01, 0x00] ++ [chapters.length % 256]
            ++ ((List.range chapters.length).map
                  (fun i => asciiBytes (toString (i + 1)) ++ [0x00])).flatten))
    ∧ (chapters.length < 256 → chapters.length % 256 = chapters.length)
    ∧ AddCHAPAndCTOC durationNs [] = .ok [] := by
  refine ⟨⟨_, AddCHAPAndCTOC_ok durationNs chapters starts hne hd hp, ?_⟩,
    fun h => Nat.mod_eq_of_lt h, rfl⟩
  rw [List.getLast?_concat]
  unfold ctocFrame
  rw [foldl_append_eq (fun id => asciiBytes id ++ [0x00])]
  simp only [chapterIntervals, List.map_map, List.nil_append, List.length_map,
    List.length_range, Option.some.injEq, Prod.mk.injEq]
  rfl

/-- Witness for C6: two chapters; the CTOC lists `"1"` and `"2"`. -/
theorem ctoc_record_layout_witness :
    (∃ frames,
      AddCHAPAndCTOC 30000000000 [⟨"Hi", "00:00:00.000"⟩, ⟨"Yo", "00:00:10"⟩] = .ok frames
      ∧ frames.getLast? = some ("CTOC",
          asciiBytes "toc" ++ [0x00] ++ [0x01, 0x00]
            ++ [([⟨"Hi", "00:00:00.000"⟩, ⟨"Yo", "00:00:10"⟩] : List Chapter).length % 256]
            ++ ((List.range ([⟨"Hi", "00:00:00.000"⟩, ⟨"Yo", "00:00:10"⟩] :
                  List Chapter).length).map
                  (fun i => asciiBytes (toString (i + 1)) ++ [0x00])).flatten))
    ∧ (([⟨"Hi", "00:00:00.000"⟩, ⟨"Yo", "00:00:10"⟩] : List Chapter).length < 256 →
        ([⟨"Hi", "00:00:00.000"⟩, ⟨"Yo", "00:00:10"⟩] : List Chapter).length % 256
          = ([⟨"Hi", "00:00:00.000"⟩, ⟨"Yo", "00:00:10"⟩] : List Chapter).length)
    ∧ AddCHAPAndCTOC 30000000000 [] = .ok [] :=
  ctoc_record_layout 30000000000 [⟨"Hi", "00:00:00.000"⟩, ⟨"Yo", "00:00:10"⟩]
    [0, 10000] (by decide) (by decide) (by decide)

/-- C8 counterexample: for the empty chapter list `GetFFmpegChaptersTXT`
succeeds but returns `nil` (no content at all) — it does not emit the
`;FFMETADATA1` marker line, contrary to the claim. -/
theorem ffmetadata_marker_cx :
    GetFFmpegChaptersTXT 1000000000 [] = .ok none
    ∧ ∀ s, GetFFmpegChaptersTXT 1000000000 [] ≠ .ok (some s) := by
  refine ⟨rfl, ?_⟩
  intro s h
  rw [show GetFFmpegChaptersTXT 1000000000 [] = .ok none from rfl] at h
  exact absurd h (by simp)

/-- C8 (amended): every successful non-`nil` output of
`GetFFmpegChaptersTXT` begins with the `;FFMETADATA1` marker line, and the
content written by `WriteFFmpegMetadataFile` always begins with it — also
for an empty chapter list, in which case `GetFFmpegChaptersTXT` itself
succeeds but returns `nil` (no marker line). -/
theorem ffmetadata_marker (durationNs : Nat) (chapters : List Chapter)
    (input : TrackInfo) :
    (∀ s, GetFFmpegChaptersTXT durationNs chapters = .ok (some s) →
        ffmetadataHeader <+: s)
    ∧ (∀ s, WriteFFmpegMetadataContent durationNs input = .ok s →
        ffmetadataHeader <+: s)
    ∧ GetFFmpegChaptersTXT durationNs [] = .ok none := by
  refine ⟨?_, ?_, rfl⟩
  · intro s h
    unfold GetFFmpegChaptersTXT at h
    split at h
    · exact absurd h (by simp)
    · split at h
      · exact absurd h (by simp)
      · split at h
        · exact absurd h (by simp)
        case _ starts hps =>
          simp only [Except.ok.injEq, Option.some.injEq] at h
          rw [← h, foldl_append_eq]
          exact List.prefix_append _ _
  · intro s h
    unfold WriteFFmpegMetadataContent at h
    split at h
    · exact absurd h (by simp)
    case _ chaptersOpt hG =>
      simp only [Except.ok.injEq] at h
      rw [← h, kvfold_eq, List.append_assoc]
      exact List.prefix_append _ _

/-- Witness for C8 (amended): a concrete one-chapter output starts with
the marker, and so does the metadata-file content for an empty input. -/
theorem ffmetadata_marker_witness :
    ffmetadataHeader <+:
      (";FFMETADATA1\n\n[CHAPTER]\nTIMEBASE=1/1000\nSTART=0\nEND=2000\ntitle=A\n".data)
    ∧ ffmetadataHeader <+: (";FFMETADATA1\ncopyright=Copyright 0001\n".data) :=
  ⟨(ffmetadata_marker 2000000000 [⟨"A", "00:00:00.000"⟩] default).1
      ";FFMETADATA1\n\n[CHAPTER]\nTIMEBASE=1/1000\nSTART=0\nEND=2000\ntitle=A\n".data
      (by decide),
   (ffmetadata_marker 2000000000 [⟨"A", "00:00:00.000"⟩] default).2.1
      ";FFMETADATA1\ncopyright=Copyright 0001\n".data (by decide)⟩

/-- C9 counterexample: with `title = " "` (empty after trimming, non-empty
before) and every other field empty, the claim predicts no `key=value`
lines at all, but the code renders a `title=` line (the guard tests the
value before trimming) and always renders a synthesized copyright line
even though the copyright field is empty. -/
theorem metadata_fields_cx :
    WriteFFmpegMetadataContent 0 { title := " " }
        = .ok ";FFMETADATA1\ntitle=\ncopyright=Copyright 0001\n".data
    ∧ WriteFFmpegMetadataContent 0 { title := " " } ≠ .ok ";FFMETADATA1\n".data := by
  refine ⟨by decide, ?_⟩
  intro h
  rw [show WriteFFmpegMetadataContent 0 { title := " " }
      = .ok ";FFMETADATA1\ntitle=\ncopyright=Copyright 0001\n".data from by decide] at h
  simp only [Except.ok.injEq] at h
  exact absurd h (by decide)

/-- C9 (amended): the metadata-file content is the marker line followed by
exactly one optional `key=value` line per entry of `kvpairs` (rendered iff
the value is non-empty before trimming, with linefeeds removed and the
result trimmed), in the fixed order title, album, artist, genre, track,
comment, language, description, copyright, date; the copyright value is
always the synthesized `"Copyright <year> <artist>"` (hence always
non-empty and always rendered, regardless of the copyright field); the
date line appears iff the date is non-zero. -/
theorem metadata_fields_amended (durationNs : Nat) (input : TrackInfo)
    (hch : input.chapters = []) :
    WriteFFmpegMetadataContent durationNs input
      = .ok (ffmetadataHeader
          ++ ((kvpairs input).map (fun kv => optKVLine kv.1 kv.2)).flatten)
    ∧ (kvpairs input).map Prod.fst
      = ["title", "album", "artist", "genre", "track", "comment", "language",
         "description", "copyright"]
        ++ (match input.date with | none => [] | some _ => ["date"])
    ∧ ((kvpairs input).getD 8 ("", "")).2
      = "Copyright " ++ String.mk (formatYear input.date) ++ " " ++ input.artist
    ∧ 0 < ((kvpairs input).getD 8 ("", "")).2.length := by
  refine ⟨?_, ?_, ?_, ?_⟩
  · unfold WriteFFmpegMetadataContent
    rw [hch]
    rw [show GetFFmpegChaptersTXT durationNs [] = .ok none from rfl]
    rw [kvfold_eq]
    simp
  · unfold kvpairs
    cases input.date <;> simp
  · unfold kvpairs
    cases input.date <;> rfl
  · unfold kvpairs
    cases input.date with
    | none =>
      show 0 < ("Copyright " ++ String.mk (formatYear none) ++ " " ++ input.artist).length
      simp only [String.length_append]
      have h0 : 0 < "Copyright ".length := by decide
      omega
    | some d =>
      show 0 < ("Copyright " ++ String.mk (formatYear (some d)) ++ " "
          ++ input.artist).length
      simp only [String.length_append]
      have h0 : 0 < "Copyright ".length := by decide
      omega

/-- Witness for C9 (amended): a title needing sanitization and an
otherwise empty input. -/
theorem metadata_fields_amended_witness :
    WriteFFmpegMetadataContent 5 { title := " x\ny " : TrackInfo }
      = .ok (ffmetadataHeader
          ++ (((kvpairs { title := " x\ny " : TrackInfo }).map
                (fun kv => optKVLine kv.1 kv.2)).flatten)) :=
  (metadata_fields_amended 5 { title := " x\ny " } rfl).1

end Id3v24
